import Mathlib

/-!
Verification of the report-rendering core of `src/main.rs` (a GitHub-profile
README generator).  The vendored copy of `main.rs` is UTF-8 text that was
double-encoded through the PTCP154 code page (its char literals hold three
characters, which is not valid Rust); all constants below are taken from the
PTCP154-decoded original, whose char literals and art blocks are well formed.

Modelling conventions:
* Rust `f64` values reaching the rendering core are modelled by `Option ℚ`
  (`none` is NaN; infinities are unreachable in this program because the only
  division is by a total that is checked against zero at the NaN branch).
  IEEE rounding of arithmetic is abstracted by exact rational arithmetic.
* Rust `usize` subtraction is modelled by two-complement wrapping (the release
  build behaviour; debug builds panic at exactly the wrapping inputs).
* Panics (`unwrap` on `None` inside `sort_by`) are modelled by `Option`.
* `str.len()` is the UTF-8 byte count (`byteLen`); Rust's `format!` padding
  counts characters, modelled by `padRight`/`padLeft` over `String.length`.
-/

namespace Readme

/-- Left-align a string in a field of `w` characters (Rust `{:<w$}`): pad on
the right with spaces, never truncate. -/
def padRight (w : Nat) (s : String) : String :=
  s ++ String.mk (List.replicate (w - s.length) ' ')

/-- Right-align a string in a field of `w` characters (Rust `{:>w$}`): pad on
the left with spaces, never truncate. -/
def padLeft (w : Nat) (s : String) : String :=
  String.mk (List.replicate (w - s.length) ' ') ++ s

/-- `c` repeated `n` times, as in Rust `str::repeat` on a one-char string. -/
def repChar (n : Nat) (c : Char) : String :=
  String.mk (List.replicate n c)

/-- UTF-8 size of one character (1 to 4 bytes). -/
def charSize (c : Char) : Nat :=
  if c.toNat < 0x80 then 1
  else if c.toNat < 0x800 then 2
  else if c.toNat < 0x10000 then 3
  else 4

/-- Rust `str::len`: the UTF-8 byte count of a string. -/
def byteLen (s : String) : Nat :=
  (s.data.map charSize).sum

/-- Split a character list at every newline; the result always has one more
element than the number of newlines. -/
def splitLines : List Char → List (List Char)
  | [] => [[]]
  | c :: rest =>
    if c = '\n' then [] :: splitLines rest
    else match splitLines rest with
      | [] => [[c]]
      | l :: ls => (c :: l) :: ls

/-- Drop a final empty fragment, if any (it arises exactly when the input
string was empty or ended with a newline). -/
def dropFinalEmpty : List (List Char) → List (List Char)
  | [] => []
  | [l] => if l = [] then [] else [l]
  | l :: ls => l :: dropFinalEmpty ls

/-- Rust `str::lines()` (for `\r`-free input, which is all this program
produces): split at newlines, without a final empty line. -/
def rustLines (s : String) : List String :=
  (dropFinalEmpty (splitLines s.data)).map String.mk

/-- Rust `.replace("Event", "")` specialised to its call site: delete every
(non-overlapping, left-to-right) occurrence of `Event`. -/
def replaceEvent : List Char → List Char
  | 'E' :: 'v' :: 'e' :: 'n' :: 't' :: rest => replaceEvent rest
  | c :: rest => c :: replaceEvent rest
  | [] => []

/-- String wrapper for `replaceEvent`. -/
def replaceEventStr (s : String) : String :=
  String.mk (replaceEvent s.data)

/-- Minimal model of `serde_json::Value`. -/
inductive Json where
  | null
  | bool (b : Bool)
  | num (n : Int)
  | str (s : String)
  | arr (elems : List Json)
  | obj (fields : List (String × Json))

/-- `value["key"]` on `serde_json::Value`: `Null` for a missing key or a
non-object receiver. -/
def Json.get (j : Json) (key : String) : Json :=
  match j with
  | .obj fields => (((fields.find? (fun f => f.1 == key)).map (fun f => f.2)).getD .null)
  | _ => .null

/-- `Value::as_str`. -/
def Json.as_str : Json → Option String
  | .str s => some s
  | _ => none

/-- `Value::as_u64`: some exactly for integers in the `u64` range. -/
def Json.as_u64 : Json → Option Nat
  | .num n => if 0 ≤ n ∧ n < 2 ^ 64 then some n.toNat else none
  | _ => none

/-- The calendar fields of a `chrono` datetime that the program's two format
strings (`%Y-%m-%d %H:%M` and `%Y-%m-%d %H:%M:%S`) consume. -/
structure DateTimeF where
  year : Nat
  month : Nat
  day : Nat
  hour : Nat
  minute : Nat
  second : Nat
deriving DecidableEq

/-- Zero-pad to two digits (`%m`, `%d`, `%H`, `%M`, `%S`). -/
def pad2 (n : Nat) : String :=
  if n < 10 then "0" ++ Nat.repr n else Nat.repr n

/-- Zero-pad to four digits (`%Y` for years below 10000). -/
def pad4 (n : Nat) : String :=
  if n < 10 then "000" ++ Nat.repr n
  else if n < 100 then "00" ++ Nat.repr n
  else if n < 1000 then "0" ++ Nat.repr n
  else Nat.repr n

/-- `dt.format("%Y-%m-%d %H:%M")`. -/
def fmtYmdHm (dt : DateTimeF) : String :=
  pad4 dt.year ++ "-" ++ pad2 dt.month ++ "-" ++ pad2 dt.day ++ " "
    ++ pad2 dt.hour ++ ":" ++ pad2 dt.minute

/-- `dt.format("%Y-%m-%d %H:%M:%S")`. -/
def fmtYmdHms (dt : DateTimeF) : String :=
  fmtYmdHm dt ++ ":" ++ pad2 dt.second

/-- Numeric value of a two-digit pair. -/
def two (a b : Char) : Nat :=
  10 * (a.toNat - 48) + (b.toNat - 48)

/-- Gregorian leap-year rule. -/
def isLeap (y : Nat) : Bool :=
  y % 4 == 0 && (y % 100 != 0 || y % 400 == 0)

/-- Days in a month of the proleptic Gregorian calendar. -/
def daysInMonth (y m : Nat) : Nat :=
  if m = 2 then (if isLeap y then 29 else 28)
  else if m = 4 ∨ m = 6 ∨ m = 9 ∨ m = 11 then 30
  else 31

/-- An RFC 3339 numeric offset or `Z`/`z` suffix. -/
def offsetOk : List Char → Bool
  | ['Z'] => true
  | ['z'] => true
  | [s, h1, h2, c, m1, m2] =>
    (s == '+' || s == '-') && c == ':' && h1.isDigit && h2.isDigit
      && m1.isDigit && m2.isDigit && two h1 h2 < 24 && two m1 m2 < 60
  | _ => false

/-- The tail after the seconds: an optional fraction, then the offset. -/
def tailOk : List Char → Bool
  | '.' :: rest =>
    decide (1 ≤ (rest.takeWhile Char.isDigit).length)
      && offsetOk (rest.dropWhile Char.isDigit)
  | rest => offsetOk rest

/-- Model of `chrono::DateTime::parse_from_rfc3339` on the grammar subset this
program can receive (`YYYY-MM-DDTHH:MM:SS[.frac](Z|±HH:MM)`): the parsed value
keeps the fields as written, which is how the subsequent `format` call renders
a `DateTime<FixedOffset>`.  Leap seconds are not modelled. -/
def parse_rfc3339 (s : String) : Option DateTimeF :=
  match s.data with
  | y1 :: y2 :: y3 :: y4 :: '-' :: mo1 :: mo2 :: '-' :: d1 :: d2 :: t :: h1 :: h2
      :: ':' :: mi1 :: mi2 :: ':' :: s1 :: s2 :: rest =>
    if y1.isDigit && y2.isDigit && y3.isDigit && y4.isDigit
        && mo1.isDigit && mo2.isDigit && d1.isDigit && d2.isDigit
        && (t == 'T' || t == 't')
        && h1.isDigit && h2.isDigit && mi1.isDigit && mi2.isDigit
        && s1.isDigit && s2.isDigit && tailOk rest then
      let y := 1000 * (y1.toNat - 48) + 100 * (y2.toNat - 48)
        + 10 * (y3.toNat - 48) + (y4.toNat - 48)
      let mo := two mo1 mo2
      let d := two d1 d2
      let h := two h1 h2
      let mi := two mi1 mi2
      let sec := two s1 s2
      if (1 ≤ mo && mo ≤ 12) && (1 ≤ d && d ≤ daysInMonth y mo)
          && h < 24 && mi < 60 && sec < 60 then
        some ⟨y, mo, d, h, mi, sec⟩
      else none
    else none
  | _ => none

/-- `format_activity` (`main.rs` lines 85-96).  The ambient `Utc::now()` used
as parse fallback is passed explicitly as `now`. -/
def format_activity (now : DateTimeF) (activity : Json) : String :=
  let event_type := replaceEventStr (((activity.get "type").as_str).getD "")
  let repo := (((activity.get "repo").get "name").as_str).getD ""
  let created_at := ((activity.get "created_at").as_str).getD ""
  let dt := (parse_rfc3339 created_at).getD now
  padRight 16 (fmtYmdHm dt) ++ " | " ++ padRight 15 event_type ++ " | " ++ repo

/-- Model of an `f64` reaching the rendering core: `none` is NaN. -/
abbrev F := Option ℚ

/-- `f64::round`: nearest integer, halfway cases away from zero. -/
def rustRound (q : ℚ) : Int :=
  if 0 ≤ q then ⌊q + 1 / 2⌋ else -⌊-q + 1 / 2⌋

/-- `as usize` on an already-rounded float: saturating cast, NaN to 0. -/
def satUsize (z : Int) : Nat :=
  (min (max z 0) (2 ^ 64 - 1)).toNat

/-- `((percentage / 100.0) * width as f64).round() as usize`; a NaN percentage
propagates through the arithmetic and casts to 0. -/
def barFilledWidth (percentage : F) (width : Nat) : Nat :=
  match percentage with
  | none => 0
  | some p => satUsize (rustRound (p / 100 * width))

/-- `create_ascii_bar` (`main.rs` lines 69-83). -/
def create_ascii_bar (percentage : F) (width : Nat) : String :=
  let filled_width := barFilledWidth percentage width
  "[" ++ String.mk ((List.range width).map (fun i =>
    if i < filled_width then '█'
    else if i = filled_width then '▓'
    else '░')) ++ "]"

/-- `create_ascii_badge` (`main.rs` lines 177-190). -/
def create_ascii_badge (label value : String) (width : Nat) : String :=
  let total_width := max width (byteLen label + byteLen value + 4)
  let label_width := byteLen label + 2
  let value_width := total_width - label_width
  let top_bottom := repChar total_width '─'
  let label_part := " " ++ padRight (label_width - 2) label
  let value_part := " " ++ padRight (value_width - 2) value ++ " "
  "╭" ++ top_bottom ++ "╮\n│" ++ label_part ++ "│" ++ value_part ++ "│\n╰"
    ++ top_bottom ++ "╯"

/-- Total order used by `compare` on finite (non-NaN) floats. -/
def cmpQ (a b : ℚ) : Ordering :=
  if a < b then .lt else if b < a then .gt else .eq

/-- `f64::partial_cmp`: `none` exactly when a NaN is involved. -/
def fCmp : F → F → Option Ordering
  | some a, some b => some (cmpQ a b)
  | _, _ => none

/-- The closure `|a, b| b.1.partial_cmp(&a.1)` from `sort_by` (the percent is
the second component here); `unwrap`'s panic is the `none` case. -/
def sortCmp (a b : String × F) : Option Ordering :=
  fCmp b.2 a.2

/-- Insert into a sorted list, keeping earlier elements in front of later
equal ones; `none` when a comparison panics. -/
def insertSorted (x : String × F) : List (String × F) → Option (List (String × F))
  | [] => some [x]
  | y :: ys =>
    match sortCmp x y with
    | none => none
    | some .gt => (insertSorted x ys).map (fun l => y :: l)
    | some _ => some (x :: y :: ys)

/-- Model of `Vec::sort_by` (a stable sort; any stable sort yields the same
list for a comparator that is a total preorder, and any sort of a list of two
or more elements evaluates the comparator at least once, so the `none`
(panicking) behaviour also agrees). -/
def sortByRust : List (String × F) → Option (List (String × F))
  | [] => some []
  | x :: xs => (sortByRust xs).bind (insertSorted x)

/-- Sum of all accumulated byte counts (`languages.values().sum()`). -/
def totalBytes (entries : List (String × Nat)) : Nat :=
  (entries.map Prod.snd).sum

/-- `(count as f64 / total_bytes as f64) * 100.0`.  When `total = 0` every
count in the map is also 0 (the total is the sum of the counts), so the
division is `0.0 / 0.0 = NaN`. -/
def divPct (count total : Nat) : F :=
  if total = 0 then none else some ((count : ℚ) / (total : ℚ) * 100)

/-- `get_all_languages` (`main.rs` lines 58-66), starting from the
accumulated `HashMap` contents.  `entries` is the map in the iteration order
the `HashMap` happens to produce: that order is unspecified (`RandomState`)
and is therefore a parameter here, not a function of the map. -/
def aggregateEntries (entries : List (String × Nat)) : Option (List (String × F)) :=
  let total := totalBytes entries
  let language_percentages := entries.map (fun p => (p.1, divPct p.2 total))
  (sortByRust language_percentages).map (fun l => l.take 10)

/-- `*languages.entry(lang).or_insert(0) += bytes` on an association list kept
in first-seen order. -/
def addLang : List (String × Nat) → String → Nat → List (String × Nat)
  | [], lang, b => [(lang, b)]
  | (l, c) :: rest, lang, b =>
    if l == lang then (l, c + b) :: rest else (l, c) :: addLang rest lang b

/-- The accumulation loop of `get_all_languages` (`main.rs` lines 36-56): sum
byte counts per language over all repositories.  The result lists the map's
content in first-seen key order. -/
def accumulateLanguages (perRepo : List (List (String × Nat))) : List (String × Nat) :=
  perRepo.foldl (fun m repo => repo.foldl (fun m' p => addLang m' p.1 p.2) m) []

/-- `get_all_languages` end to end for the run whose `HashMap` iteration order
coincides with first-seen order (one of the possible orders). -/
def get_all_languages (perRepo : List (List (String × Nat))) : Option (List (String × F)) :=
  aggregateEntries (accumulateLanguages perRepo)

/-- Rust `{:.1}` on the `f64` model: one fixed decimal (NaN prints `NaN`).
The program only formats non-negative percentages. -/
def fmtF1 : F → String
  | none => "NaN"
  | some q =>
    let n := (⌊q * 10 + 1 / 2⌋).toNat
    Nat.repr (n / 10) ++ "." ++ Nat.repr (n % 10)

/-- `usize` subtraction in a release build: two-complement wrapping.  (A debug
build panics at exactly the inputs where this wraps.) -/
def wrapSub (a b : Nat) : Nat :=
  (a + 2 ^ 64 - b) % 2 ^ 64

/-- The fixed small ASCII-art block (`main.rs` lines 275-285). -/
def small_ascii_art : List String := [
  "⠀⠀⠀⠀⠀⠀⠀⠀⠀⠀⠀⠀⢀⣀⣀⣀⠀⠀⠀⠀⠀⠀⠀⠀⠀⠀⠀⠀",
  "⠀⠀⠀⠀⠀⠀⠀⠀⠀⠀⠀⠀⢇⠀⠃⣈⠇⠀⠀⠀⠀⠀⠀⠀⠀⠀⠀⠀",
  "⠀⠀⠀⠀⠀⠀⠀⣤⣤⣤⣄⣀⡀⠙⠞⠁⠀⠀⠀⣀⣀⣀⣀⠀⠀⠀⠀⠀",
  "⠀⠀⠀⠀⠀⠀⢰⡏⢻⣫⣿⣿⣿⣿⣿⣿⣿⣿⣿⣿⢿⠟⣿⠀⠀⠀⠀⠀",
  "⠀⠀⠀⠀⡐⡄⣸⣰⣿⣿⣿⣿⣿⣿⣿⣿⣿⣿⣿⣿⣷⣄⣿⠀⠀⠀⠀⠀",
  "⠀⠀⣀⠠⢝⡜⣿⣿⡟⢉⣭⡝⢿⣿⣿⣿⡟⣭⣭⠉⢻⣿⡿⡠⠒⠀⠀⠀",
  "⡴⣟⣿⣻⣆⢰⣿⣿⠀⢸⣿⣿⢸⣿⣿⣿⠙⣿⣿⠇⠈⣿⣿⠱⠭⠄⠀⠀",
  "⢷⣿⡀⣸⣿⡞⣿⣿⣄⠀⠉⠁⣼⣿⢿⣿⣧⠈⠁⠀⣰⣿⣿⣠⣴⣶⣦⣄",
  "⠈⠉⠉⠉⠉⠉⠉⠉⠉⠉⠉⠉⠙⠒⠓⠒⠛⠛⠛⠛⠛⠛⠓⠻⡏⣿⣿⠿"
]

/-- The language section's rows (`main.rs` lines 296-316): one line per ranked
language, the bottom rows suffixed with the small art, right-aligned in a
50-character field after padding the language line to 12+26 characters. -/
def languageRows (top_languages : List (String × F)) : List String :=
  (List.range top_languages.length).map (fun i =>
    let p := top_languages.getD i ("", none)
    let line := padRight 12 p.1 ++ " " ++ create_ascii_bar p.2 20 ++ " "
      ++ fmtF1 p.2 ++ "%"
    if wrapSub top_languages.length small_ascii_art.length ≤ i then
      padRight (12 + 26) line ++ " "
        ++ padLeft 50 (small_ascii_art.getD
            (i - wrapSub top_languages.length small_ascii_art.length) "")
    else
      line)

/-- `format_github_stats` (`main.rs` lines 159-175). -/
def format_github_stats (stats : Json) : String :=
  let v22 := fun (k : String) => padLeft 22 (Nat.repr (((stats.get k).as_u64).getD 0))
  let v36 := fun (k : String) => padLeft 36 (Nat.repr (((stats.get k).as_u64).getD 0))
  "+-------------+------------------------+----------------+--------------------------------------+" ++ "\n"
    ++ "|   Metric    |         Value          |     Metric     |                Value                 |" ++ "\n"
    ++ "+-------------+------------------------+----------------+--------------------------------------+" ++ "\n"
    ++ "|   Commits   | " ++ v22 "total_commits" ++ " | Issues opened  | "
      ++ v36 "total_issues" ++ " |\n"
    ++ "| PRs opened  | " ++ v22 "total_prs" ++ " | Stars received | "
      ++ v36 "total_stars" ++ " |\n"
    ++ "| Repos owned | " ++ v22 "repos_owned" ++ " | Contributed to | "
      ++ v36 "contributed_to" ++ " |\n"
    ++ "+-------------+------------------------+----------------+--------------------------------------+"

/-- `header_lines.iter().map(|l| l.len()).max().unwrap_or(0) / 2`: half of the
largest byte length among the header lines. -/
def maxHeaderWidth (header_lines : List String) : Nat :=
  ((header_lines.map byteLen).foldl max 0) / 2

/-- The header/badge interleaving loop (`main.rs` lines 253-268), accumulating
one output string exactly as `output += format!("> {:<width$} {}\n", ...)`
does, with `badge_offset = 4`. -/
def headerBadgeBlock (header_lines badge_lines : List String) : String :=
  (List.range (max header_lines.length (badge_lines.length + 4))).foldl
    (fun out i =>
      let header_part := header_lines.getD i ""
      let badge_part := if 4 ≤ i then badge_lines.getD (i - 4) "" else ""
      out ++ ("> " ++ padRight (maxHeaderWidth header_lines + 2) header_part
        ++ " " ++ badge_part ++ "\n"))
    ""

/-- The large ASCII-art figure (`main.rs` lines 218-237): a raw string that
begins with a newline and ends with a newline and four spaces. -/
def figureArtLines : List String := [
  "⠀⠀⠀⠀⠀⠀⠀⠀⠀⠀⠀⠀⠀⠀⠀⠀⠀⠀⠀⣠⣤⣄⡀⠀⠀⠀⣀⣠⣀⠀⠀⠀⠀⠀⠀⠀",
  "⠀⠀⠀⠀⠀⢀⣄⣀⣀⣀⠀⠀⠀⠀⠀⠀⣀⣠⣾⠏⠉⠙⢿⣶⡾⠟⠛⠉⠻⣷⠀⠀⠀⠀⠀⠀",
  "⠀⠀⠀⠀⢰⣿⠋⠉⠙⠛⠿⣶⣶⠿⠿⠟⢻⣿⠃⠀⢠⣴⣤⣿⣧⣄⡀⣀⣀⣿⡆⠀⠀⠀⠀⠀",
  "⠀⠀⠀⠀⣿⡏⠀⠀⠀⠀⠀⠀⠀⠀⠀⠀⢸⣏⠀⠀⢻⣧⡿⠋⠉⠉⢿⣟⠉⠙⠻⣧⠀⠀⠀⠀",
  "⠀⠀⠀⠀⢻⣧⣀⠀⠀⠀⠀⠀⠀⠀⠀⠀⠈⢿⣦⣤⣤⣿⣷⡀⠀⢀⣾⣿⡧⠀⢀⣿⠀⠀⠀⠀",
  "⠀⠀⠀⠀⢘⣿⠏⠀⠀⠀⠀⠀⠀⠀⠀⠀⠀⠀⠀⠀⠀⠀⠉⠛⠿⣿⡛⠉⠁⣠⣿⡇⠀⠀⠀⠀",
  "⠀⠀⠀⠀⣾⡏⠀⠀⠀⠀⠀⠀⠀⠀⠀⠀⠀⠀⠀⠀⠀⠀⠀⠀⠀⠈⠛⠿⠟⠋⠘⣿⠀⠀⠀⠀",
  "⠀⠀⠀⢠⣿⠄⠀⠀⠀⠀⠀⠀⠀⠀⠀⠀⠀⠀⠀⠀⠀⠀⠀⠀⠠⠀⠀⠀⠀⣤⡶⣿⡷⠶⠶⠆",
  "⠀⣀⣠⣼⣿⣤⣤⠀⠀⠀⣠⣦⡀⠀⠀⠀⠀⠀⠀⠀⠀⠀⠀⠀⣾⣿⡄⠀⠀⠀⣀⣿⣇⡀⠀⠀",
  "⠈⠉⠉⣴⠟⠻⣷⡄⠀⢰⣿⡿⠃⠀⠀⠀⠀⣴⣷⣤⠀⠀⠀⠀⠙⠻⠗⠀⠀⠀⢩⣿⠉⠉⠉⠀",
  "⢀⣤⣶⣿⡄⠀⠸⣷⣀⣀⡀⠀⠀⠀⠀⠀⠀⠿⠶⠟⠀⠀⠀⠀⠀⠀⠀⠀⠀⣻⣿⣷⣤⣀⠀⠀",
  "⢺⡇⠀⠈⠑⠀⠀⠉⠉⠙⠻⣷⡄⠀⠀⠀⠀⠀⠀⠀⠀⠀⠀⠀⠀⠀⣀⣤⣾⠟⠁⠀⠈⠉⠀⠀",
  "⠈⠻⢷⣦⡀⠀⣠⡶⠾⠆⠀⠘⣿⣤⣤⣤⣤⣤⣤⣤⣤⣤⣴⣶⢶⣿⡿⣭⡀⠀⠀⠀⠀⠀⠀⠀",
  "⠀⠀⠀⢹⣇⠀⢿⣧⣠⣾⠇⢠⣿⠃⠉⢿⣍⣉⣉⣩⡟⠁⠸⣧⣼⡟⣁⣼⠇⠀⠀⠀⠀⠀⠀⠀",
  "⠀⠀⠀⠈⢿⣦⣄⣉⣉⣠⣴⣿⣏⠀⠀⠀⠈⠉⠉⠁⠀⠀⠀⣹⡟⠛⠋⠀⠀⠀⠀⠀⠀⠀⠀⠀",
  "⠀⠀⠀⠀⠀⠈⠙⠛⠛⠛⠉⠀⠹⣷⠦⣤⣀⣀⣀⣀⣤⡴⣺⠟⠀⠀⠀⠀⠀⠀⠀⠀⠀⠀⠀⠀",
  "⠀⠀⠀⠀⠀⠀⠀⠀⠀⠀⠀⠀⠀⠈⠳⢤⣈⡽⢿⣅⣤⠾⠃⠀⠀⠀⠀⠀⠀⠀⠀⠀⠀⠀⠀⠀"
]

/-- The figure as the raw string literal of the source. -/
def figure : String :=
  "\n" ++ String.intercalate "\n" figureArtLines ++ "\n    "

/-- The activity rows: the first five events, one formatted row each
(`main.rs` lines 329-332). -/
def activityLines (nowUtc : DateTimeF) (activities : List Json) : String :=
  String.join ((activities.take 5).map (fun a => format_activity nowUtc a ++ "\n"))

/-- Everything `main` appends to `output` before the `Last updated` line
(`main.rs` lines 238-334), given the aggregated language list, the fetched
activity events, the stats object and the follower count.  `nowUtc` is the
instant `Utc::now()` would return during this run (used only as the fallback
for unparseable activity timestamps). -/
def reportBody (top_languages : List (String × F)) (activities : List Json)
    (stats : Json) (followers : Nat) (nowUtc : DateTimeF) : String :=
  let github_stars := ((stats.get "total_stars").as_u64).getD 0
  let github_followers_badge := create_ascii_badge "Followers" (Nat.repr followers) 20
  let github_stars_badge := create_ascii_badge "Stars" (Nat.repr github_stars) 20
  let badges_string := github_followers_badge ++ "\n\n" ++ github_stars_badge
  let header_lines := rustLines figure
  let badge_lines := rustLines badges_string
  "> [!WARNING]\n> ```"
    ++ headerBadgeBlock header_lines badge_lines
    ++ "> ```\n"
    ++ "> <p>You’re coding at the bar ~ Im drunk at the office</p>\n\n"
    ++ "---\n\n"
    ++ "#### 🛠️ Languages\n"
    ++ "```css\n"
    ++ String.join ((languageRows top_languages).map (fun r => r ++ "\n"))
    ++ "```\n\n"
    ++ "#### 📊 Stats\n"
    ++ "```\n"
    ++ format_github_stats stats
    ++ "\n```\n\n"
    ++ "#### 🔥 Activity\n"
    ++ "```\n"
    ++ repChar 60 '-' ++ "\n"
    ++ activityLines nowUtc activities
    ++ repChar 60 '-' ++ "\n\n"

/-- Everything `main` appends after the `Last updated` line
(`main.rs` lines 337-341). -/
def reportTail : String :=
  "```\n\n"
    ++ "> [!NOTE]\n"
    ++ "> <p align=\"center\">This README is <b>auto-generated</b> with Rust and Actions - Credits to the original creater is <a href=\"https://github.com/vxfemboy/vxfemboy/\">@vxfemboy</a></p>"

/-- The whole generated document (`main.rs` lines 241-341).  `nowLocal` is the
instant `Local::now()` returns for the `Last updated` line. -/
def composeReport (top_languages : List (String × F)) (activities : List Json)
    (stats : Json) (followers : Nat) (nowUtc nowLocal : DateTimeF) : String :=
  reportBody top_languages activities stats followers nowUtc
    ++ ("Last updated: " ++ fmtYmdHms nowLocal ++ "\n")
    ++ reportTail

/-- The document's lines except those carrying the `Last updated` timestamp:
the claimed run-to-run-identical part of the report. -/
def stripLastUpdated (doc : String) : List String :=
  (rustLines doc).filter (fun l => !(("Last updated:".data).isPrefixOf l.data))

/-! ## Helper lemmas -/

/-- Evaluation of `format_activity` when all three fields are strings and the
timestamp parses. -/
theorem format_activity_eval (now : DateTimeF) (a : Json) (ty repo ca : String)
    (dt : DateTimeF)
    (h1 : (a.get "type").as_str = some ty)
    (h2 : ((a.get "repo").get "name").as_str = some repo)
    (h3 : (a.get "created_at").as_str = some ca)
    (h4 : parse_rfc3339 ca = some dt) :
    format_activity now a
      = padRight 16 (fmtYmdHm dt) ++ " | " ++ padRight 15 (replaceEventStr ty)
        ++ " | " ++ repo := by
  simp [format_activity, h1, h2, h3, h4]

/-! ## C1 -/

/-- The event record of the claim's test vector. -/
def pushActivity : Json :=
  .obj [("type", .str "PushEvent"), ("repo", .obj [("name", .str "a/b")]),
    ("created_at", .str "2024-01-02T03:04:05Z")]

/-- C1: the claim's expected row is not what `format_activity` returns for the
claim's event record (the code puts the timestamp first, not last). -/
theorem C1_counterexample :
    format_activity ⟨2000, 1, 1, 0, 0, 0⟩ pushActivity
      ≠ "Push             | a/b             | 2024-01-02 03:04" := by
  rw [format_activity_eval ⟨2000, 1, 1, 0, 0, 0⟩ pushActivity "PushEvent" "a/b"
    "2024-01-02T03:04:05Z" ⟨2024, 1, 2, 3, 4, 5⟩ (by decide) (by decide) (by decide)
    (by decide)]
  decide

/-- C1 (amended): `format_activity`, given the event record
`{type: "PushEvent", repo: {name: "a/b"}, created_at: "2024-01-02T03:04:05Z"}`,
returns exactly `"2024-01-02 03:04 | Push            | a/b"`: the timestamp
formatted as `YYYY-MM-DD HH:MM` left-aligned in a 16-column field, then the
kind (with `Event` stripped) left-aligned in a 15-column field, then the
repository name, in that left-to-right order. -/
theorem C1_amended (now : DateTimeF) :
    format_activity now pushActivity
      = "2024-01-02 03:04 | Push            | a/b" := by
  rw [format_activity_eval now pushActivity "PushEvent" "a/b"
    "2024-01-02T03:04:05Z" ⟨2024, 1, 2, 3, 4, 5⟩ (by decide) (by decide) (by decide)
    (by decide)]
  decide

/-! ## C8 -/

/-- C8: an event whose `created_at` string does not parse as RFC 3339 still
yields a formatted row, with the current time substituted for the
timestamp. -/
theorem C8_thm (now : DateTimeF) (a : Json)
    (h : parse_rfc3339 (((a.get "created_at").as_str).getD "") = none) :
    format_activity now a
      = padRight 16 (fmtYmdHm now) ++ " | "
        ++ padRight 15 (replaceEventStr (((a.get "type").as_str).getD ""))
        ++ " | " ++ (((a.get "repo").get "name").as_str).getD "" := by
  simp [format_activity, h]

/-- An event record with a malformed timestamp. -/
def garbageTsActivity : Json :=
  .obj [("type", .str "PushEvent"), ("repo", .obj [("name", .str "x/y")]),
    ("created_at", .str "not-a-date")]

/-- C8 (witness): the malformed-timestamp event at a concrete `now`. -/
theorem C8_witness :
    parse_rfc3339 (((garbageTsActivity.get "created_at").as_str).getD "") = none ∧
    format_activity ⟨2024, 5, 6, 7, 8, 9⟩ garbageTsActivity
      = padRight 16 (fmtYmdHm ⟨2024, 5, 6, 7, 8, 9⟩) ++ " | "
        ++ padRight 15 (replaceEventStr (((garbageTsActivity.get "type").as_str).getD ""))
        ++ " | " ++ (((garbageTsActivity.get "repo").get "name").as_str).getD "" :=
  ⟨by decide, C8_thm ⟨2024, 5, 6, 7, 8, 9⟩ garbageTsActivity (by decide)⟩

/-! ## C10 -/

/-- C10: `format_activity` is total on every JSON record — a row of the
timestamp/kind/repo shape is always produced — and each field degrades
independently: a missing or non-string `type` renders the kind cell as the
empty string, a missing or non-string `repo.name` renders the repo cell as
the empty string, and a missing or non-string `created_at` yields the empty
timestamp string, which fails the RFC 3339 parse and falls back to the
current time, whatever the other fields hold. -/
theorem C10_thm (now : DateTimeF) (a : Json) :
    (∃ ts kind repo, format_activity now a
        = padRight 16 (fmtYmdHm ts) ++ " | " ++ padRight 15 kind ++ " | " ++ repo) ∧
    ((a.get "type").as_str = none →
      format_activity now a
        = padRight 16 (fmtYmdHm
              ((parse_rfc3339 (((a.get "created_at").as_str).getD "")).getD now))
          ++ " | " ++ padRight 15 ""
          ++ " | " ++ (((a.get "repo").get "name").as_str).getD "") ∧
    (((a.get "repo").get "name").as_str = none →
      format_activity now a
        = padRight 16 (fmtYmdHm
              ((parse_rfc3339 (((a.get "created_at").as_str).getD "")).getD now))
          ++ " | " ++ padRight 15 (replaceEventStr (((a.get "type").as_str).getD ""))
          ++ " | " ++ "") ∧
    ((a.get "created_at").as_str = none →
      format_activity now a
        = padRight 16 (fmtYmdHm now)
          ++ " | " ++ padRight 15 (replaceEventStr (((a.get "type").as_str).getD ""))
          ++ " | " ++ (((a.get "repo").get "name").as_str).getD "") := by
  refine ⟨⟨(parse_rfc3339 (((a.get "created_at").as_str).getD "")).getD now,
    replaceEventStr (((a.get "type").as_str).getD ""),
    (((a.get "repo").get "name").as_str).getD "", rfl⟩, ?_, ?_, ?_⟩
  · intro h1
    simp [format_activity, h1]
    rfl
  · intro h2
    simp [format_activity, h2]
  · intro h3
    simp [format_activity, h3]
    rfl

/-- C10 (witness): the empty JSON object at a concrete `now` discharges all
three per-field hypotheses; shown here through the missing-`created_at`
conjunct, whose fallback row it instantiates. -/
theorem C10_witness :
    (((Json.obj []).get "type").as_str = none ∧
     (((Json.obj []).get "repo").get "name").as_str = none ∧
     ((Json.obj []).get "created_at").as_str = none) ∧
    format_activity ⟨2023, 12, 31, 23, 59, 58⟩ (Json.obj [])
      = padRight 16 (fmtYmdHm ⟨2023, 12, 31, 23, 59, 58⟩)
        ++ " | " ++ padRight 15 (replaceEventStr ((((Json.obj []).get "type").as_str).getD ""))
        ++ " | " ++ ((((Json.obj []).get "repo").get "name").as_str).getD "" :=
  ⟨⟨by decide, by decide, by decide⟩,
    (C10_thm ⟨2023, 12, 31, 23, 59, 58⟩ (Json.obj [])).2.2.2 (by decide)⟩

/-! ## C4 -/

/-- Counting the indices below a bound in `List.range`. -/
theorem countP_lt_range (fw w : Nat) :
    (List.range w).countP (fun i => decide (i < fw)) = min fw w := by
  induction w with
  | zero => simp
  | succ n ih =>
    rw [List.range_succ, List.countP_append, ih]
    by_cases h : n < fw <;> simp [List.countP_cons, h] <;> omega

/-- C4: for every percentage (in range or not) and every positive width in the
`usize` range, the bar is exactly `width + 2` characters long, and its number
of FILLED glyphs is `round(percent / 100 * width)` clamped to `[0, width]`
(the clamping is performed by the saturating `as usize` cast). -/
theorem C4_thm (p : ℚ) (w : Nat) (h1 : 1 ≤ w) (h2 : w < 2 ^ 64) :
    (create_ascii_bar (some p) w).length = w + 2 ∧
    ((create_ascii_bar (some p) w).data.countP (fun c => c == '█'))
      = (max 0 (min (rustRound (p / 100 * (w : ℚ))) (w : Int))).toNat := by
  have hdata : (create_ascii_bar (some p) w).data
      = '[' :: (((List.range w).map (fun i =>
          if i < barFilledWidth (some p) w then '█'
          else if i = barFilledWidth (some p) w then '▓'
          else '░')) ++ [']']) := by
    simp [create_ascii_bar, String.data_append]
  constructor
  · have hlen : (create_ascii_bar (some p) w).length
        = (create_ascii_bar (some p) w).data.length := rfl
    rw [hlen, hdata]
    simp
  · rw [hdata]
    rw [List.countP_cons, List.countP_append, List.countP_map]
    have hfun : ((fun c => c == '█') ∘ (fun i =>
        if i < barFilledWidth (some p) w then '█'
        else if i = barFilledWidth (some p) w then '▓'
        else '░')) = fun i => decide (i < barFilledWidth (some p) w) := by
      funext i
      by_cases hlt : i < barFilledWidth (some p) w
      · simp [hlt]
      · by_cases heq : i = barFilledWidth (some p) w <;> simp [hlt, heq]
    rw [hfun, countP_lt_range]
    have hfw : barFilledWidth (some p) w
        = (min (max (rustRound (p / 100 * (w : ℚ))) 0) (2 ^ 64 - 1)).toNat := rfl
    rw [hfw]
    have hc1 : (('[' : Char) == '█') = false := by decide
    have hc2 : ((']' : Char) == '█') = false := by decide
    simp [List.countP_cons, List.countP_nil, hc1, hc2]
    omega

/-- C4 (witness): percentage 50 over width 20. -/
theorem C4_witness :
    1 ≤ 20 ∧ 20 < 2 ^ 64 ∧
    ((create_ascii_bar (some 50) 20).length = 20 + 2 ∧
     ((create_ascii_bar (some 50) 20).data.countP (fun c => c == '█'))
       = (max 0 (min (rustRound ((50 : ℚ) / 100 * (20 : ℚ))) ((20 : Nat) : Int))).toNat) :=
  ⟨by decide, by decide, C4_thm 50 20 (by decide) (by decide)⟩

/-! ## C2 -/

/-- When every percent in the list is NaN and there are at least two entries,
the sort's comparator panics. -/
theorem sortByRust_allNone (l : List (String × F)) (h2 : 2 ≤ l.length)
    (hn : ∀ p ∈ l, p.2 = none) : sortByRust l = none := by
  induction l with
  | nil => simp at h2
  | cons a l' ih =>
    cases l' with
    | nil => simp at h2
    | cons b l'' =>
      have ha : a.2 = none := hn a (List.mem_cons_self a _)
      cases l'' with
      | nil =>
        have hb : b.2 = none := hn b (by simp)
        simp [sortByRust, insertSorted, sortCmp, fCmp, ha, hb]
      | cons c l''' =>
        have hrec : sortByRust (b :: c :: l''') = none := by
          refine ih (by simp) ?_
          intro p hp
          exact hn p (List.mem_cons_of_mem a hp)
        rw [show sortByRust (a :: b :: c :: l''')
            = (sortByRust (b :: c :: l''')).bind (insertSorted a) from rfl, hrec]
        rfl

/-- C2: an accumulated map whose keys all carry byte count 0 does not yield an
empty sequence: one zero-byte key gives a NaN-percent entry, and two
zero-byte keys make the sort comparator panic. -/
theorem C2_counterexample :
    get_all_languages [[("Rust", 0)]] ≠ some [] ∧
    get_all_languages [[("A", 0), ("B", 0)]] = none := by
  decide

/-- C2 (amended): for zero total bytes, the aggregation returns the empty
sequence exactly when no language key accumulated at all; with keys present
it instead returns a NaN-percent entry (one key) or panics inside the sort's
comparator `unwrap` (two or more keys). -/
theorem C2_amended (entries : List (String × Nat)) (h : totalBytes entries = 0) :
    aggregateEntries entries
      = if entries.length ≤ 1
        then some (entries.map (fun p => (p.1, (none : Option ℚ))))
        else none := by
  cases entries with
  | nil => rfl
  | cons x rest =>
    cases rest with
    | nil => simp [aggregateEntries, h, divPct, sortByRust, insertSorted]
    | cons y rest' =>
      have hnone : sortByRust ((x :: y :: rest').map
          (fun p => (p.1, divPct p.2 (totalBytes (x :: y :: rest'))))) = none := by
        refine sortByRust_allNone _ (by simp) ?_
        intro p hp
        obtain ⟨q, _, hq⟩ := List.mem_map.mp hp
        rw [← hq, h]
        rfl
      have hdef : aggregateEntries (x :: y :: rest')
          = (sortByRust ((x :: y :: rest').map
              (fun p => (p.1, divPct p.2 (totalBytes (x :: y :: rest')))))).map
            (fun l => l.take 10) := rfl
      rw [hdef, hnone]
      simp

/-- C2 (witness): a single language key with byte count 0. -/
theorem C2_witness :
    totalBytes [("Rust", 0)] = 0 ∧
    aggregateEntries [("Rust", 0)]
      = if List.length [("Rust", (0 : Nat))] ≤ 1
        then some ([("Rust", (0 : Nat))].map (fun p => (p.1, (none : Option ℚ))))
        else none :=
  ⟨by decide, C2_amended [("Rust", 0)] (by decide)⟩

/-! ## C6 -/

/-- Sort key: the percent of an entry, with an arbitrary default for NaN (the
sort only succeeds on NaN-free lists, where the default is never used). -/
def pKey (x : String × F) : ℚ :=
  (x.2).getD 0

/-- Descending order on percents, the total preorder realised by the
comparator on NaN-free lists. -/
def rDesc (x y : String × F) : Prop :=
  pKey y ≤ pKey x

instance : DecidableRel rDesc :=
  fun x y => inferInstanceAs (Decidable (pKey y ≤ pKey x))

instance : IsTotal (String × F) rDesc :=
  ⟨fun a b => le_total (pKey b) (pKey a)⟩

instance : IsTrans (String × F) rDesc :=
  ⟨fun _ _ _ h1 h2 => le_trans h2 h1⟩

/-- On NaN-free lists, one insertion step of the modelled `sort_by` is
`List.orderedInsert` for the descending percent order. -/
theorem insertSorted_eq_orderedInsert (x : String × F) (l : List (String × F))
    (hx : (x.2).isSome) (hl : ∀ p ∈ l, (p.2).isSome) :
    insertSorted x l = some (List.orderedInsert rDesc x l) := by
  induction l with
  | nil => rfl
  | cons y ys ih =>
    obtain ⟨qx, hqx⟩ := Option.isSome_iff_exists.mp hx
    obtain ⟨qy, hqy⟩ := Option.isSome_iff_exists.mp (hl y (List.mem_cons_self y ys))
    have hys : ∀ p ∈ ys, (p.2).isSome := fun p hp => hl p (List.mem_cons_of_mem y hp)
    have hky : pKey y = qy := by simp [pKey, hqy]
    have hkx : pKey x = qx := by simp [pKey, hqx]
    rcases lt_trichotomy qy qx with hlt | heq | hgt
    · have hcmp : sortCmp x y = some Ordering.lt := by
        simp [sortCmp, fCmp, hqx, hqy, cmpQ, hlt]
      have hr : rDesc x y := by
        rw [rDesc, hky, hkx]
        exact le_of_lt hlt
      simp [insertSorted, hcmp, List.orderedInsert, if_pos hr]
    · have hcmp : sortCmp x y = some Ordering.eq := by
        simp [sortCmp, fCmp, hqx, hqy, cmpQ, heq]
      have hr : rDesc x y := by
        rw [rDesc, hky, hkx, heq]
      simp [insertSorted, hcmp, List.orderedInsert, if_pos hr]
    · have hnlt : ¬ qy < qx := not_lt.mpr (le_of_lt hgt)
      have hcmp : sortCmp x y = some Ordering.gt := by
        simp [sortCmp, fCmp, hqx, hqy, cmpQ, hnlt, hgt]
      have hr : ¬ rDesc x y := by
        rw [rDesc, hky, hkx]
        exact not_le.mpr hgt
      simp [insertSorted, hcmp, ih hys, List.orderedInsert, if_neg hr]

/-- On NaN-free lists, the modelled `sort_by` succeeds and computes the stable
insertion sort for the descending percent order. -/
theorem sortByRust_eq_insertionSort (l : List (String × F))
    (hl : ∀ p ∈ l, (p.2).isSome) :
    sortByRust l = some (List.insertionSort rDesc l) := by
  induction l with
  | nil => rfl
  | cons x xs ih =>
    have hxs : ∀ p ∈ xs, (p.2).isSome := fun p hp => hl p (List.mem_cons_of_mem x hp)
    have hmem : ∀ p ∈ List.insertionSort rDesc xs, (p.2).isSome := by
      intro p hp
      exact hxs p ((List.perm_insertionSort rDesc xs).mem_iff.mp hp)
    rw [sortByRust, ih hxs]
    simp [List.insertionSort,
      insertSorted_eq_orderedInsert x _ (hl x (List.mem_cons_self x xs)) hmem]

/-- The claim's non-increasing-percent relation between adjacent output
entries. -/
def percentGe (x y : String × F) : Prop :=
  ∃ a b, x.2 = some a ∧ y.2 = some b ∧ b ≤ a

/-- C6: the tie-break is not determined by the accumulated map (nor by
first-seen order): the same two-language map, handed over in the two orders a
`HashMap` with random state may produce, yields two different outputs. -/
theorem C6_counterexample :
    List.Perm [("B", 1), ("A", 1)] [("A", (1 : Nat)), ("B", 1)] ∧
    aggregateEntries [("B", 1), ("A", 1)] ≠ aggregateEntries [("A", 1), ("B", 1)] := by
  constructor
  · decide
  · intro h
    simp [aggregateEntries, totalBytes, divPct, sortByRust, insertSorted,
      sortCmp, fCmp, cmpQ] at h

/-- C6 (amended): for positive total bytes the aggregation succeeds, returns
at most 10 entries, and they are sorted non-increasing by percent; but the
order of entries with equal percentages follows the hash map's unspecified
iteration order, not first-seen order. -/
theorem C6_amended (entries : List (String × Nat)) (h : 0 < totalBytes entries) :
    ∃ l, aggregateEntries entries = some l ∧ l.length ≤ 10 ∧ List.Pairwise percentGe l := by
  have hne : totalBytes entries ≠ 0 := Nat.pos_iff_ne_zero.mp h
  have hsome : ∀ p ∈ entries.map
      (fun p => (p.1, divPct p.2 (totalBytes entries))), (p.2).isSome := by
    intro p hp
    obtain ⟨q, _, hq⟩ := List.mem_map.mp hp
    rw [← hq]
    simp [divPct, hne]
  have hs := sortByRust_eq_insertionSort _ hsome
  refine ⟨(List.insertionSort rDesc (entries.map
      (fun p => (p.1, divPct p.2 (totalBytes entries))))).take 10, ?_, ?_, ?_⟩
  · have hdef : aggregateEntries entries
        = (sortByRust (entries.map (fun p => (p.1, divPct p.2 (totalBytes entries))))).map
            (fun l => l.take 10) := rfl
    rw [hdef, hs]
    rfl
  · rw [List.length_take]
    exact Nat.min_le_left 10 _
  · have hsorted : List.Pairwise rDesc (List.insertionSort rDesc (entries.map
        (fun p => (p.1, divPct p.2 (totalBytes entries))))) :=
      List.sorted_insertionSort rDesc _
    have htaken : List.Pairwise rDesc ((List.insertionSort rDesc (entries.map
        (fun p => (p.1, divPct p.2 (totalBytes entries))))).take 10) :=
      hsorted.sublist (List.take_sublist 10 _)
    refine htaken.imp_of_mem ?_
    intro a b hma hmb hr
    have hsub := List.take_subset 10 (List.insertionSort rDesc (entries.map
        (fun p => (p.1, divPct p.2 (totalBytes entries)))))
    have hmem : ∀ p ∈ List.insertionSort rDesc (entries.map
        (fun p => (p.1, divPct p.2 (totalBytes entries)))), (p.2).isSome := by
      intro p hp
      exact hsome p ((List.perm_insertionSort rDesc _).mem_iff.mp hp)
    obtain ⟨qa, hqa⟩ := Option.isSome_iff_exists.mp (hmem a (hsub hma))
    obtain ⟨qb, hqb⟩ := Option.isSome_iff_exists.mp (hmem b (hsub hmb))
    refine ⟨qa, qb, hqa, hqb, ?_⟩
    have := hr
    rw [rDesc] at this
    rw [pKey, pKey, hqa, hqb] at this
    simpa using this

/-- C6 (witness): a one-language map with positive bytes. -/
theorem C6_witness :
    0 < totalBytes [("Rust", 10)] ∧
    ∃ l, aggregateEntries [("Rust", 10)] = some l ∧ l.length ≤ 10 ∧
      List.Pairwise percentGe l :=
  ⟨by decide, C6_amended [("Rust", 10)] (by decide)⟩

/-! ## C7 -/

/-- A string-accumulating loop over `0..n` is the join of the per-index
rows. -/
theorem foldl_append_eq_join (f : Nat → String) (n : Nat) :
    (List.range n).foldl (fun out i => out ++ f i) "" = String.join ((List.range n).map f) := by
  simp [String.join, List.foldl_map]

/-- C7: the header/badge interleaving emits exactly
`max(headerLineCount, badgeLineCount + 4)` rows; row `i` is the header line
`i` (empty when out of range) left-aligned in a field of `maxHeaderWidth + 2`
characters followed by badge line `i - 4` when `i ≥ 4` and that line exists
(else nothing), with `maxHeaderWidth` half the largest header-line byte
length; each row carries the `"> "` prefix and a separating space of the
`format!` template. -/
theorem C7_thm (header_lines badge_lines : List String) :
    headerBadgeBlock header_lines badge_lines
      = String.join ((List.range (max header_lines.length (badge_lines.length + 4))).map
          (fun i => "> "
            ++ padRight (((header_lines.map byteLen).foldl max 0) / 2 + 2)
                (header_lines.getD i "")
            ++ " " ++ (if 4 ≤ i then badge_lines.getD (i - 4) "" else "") ++ "\n"))
    ∧ ∀ (f : Nat → String),
        ((List.range (max header_lines.length (badge_lines.length + 4))).map f).length
          = max header_lines.length (badge_lines.length + 4) := by
  constructor
  · simp only [headerBadgeBlock, maxHeaderWidth]
    rw [foldl_append_eq_join]
  · intro f
    simp

/-! ## C3 -/

/-- Every small-art line is nonempty and ends in a braille glyph, never in
`%`. -/
theorem small_art_last : ∀ a ∈ small_ascii_art, a.data ≠ [] ∧ a.data.getLast? ≠ some '%' := by
  decide

/-- With fewer ranked languages than art lines, the `usize` subtraction wraps
to a huge bound, so no row at all receives an art suffix (a debug build would
panic instead). -/
theorem languageRows_no_art (L : List (String × F)) (hlt : L.length < 9) :
    (languageRows L).countP
      (fun r => small_ascii_art.any (fun a => a.data.isSuffixOf r.data)) = 0 := by
  rw [List.countP_eq_zero]
  intro r hr
  obtain ⟨i, hi, hrow⟩ := List.mem_map.mp hr
  have hiL : i < L.length := List.mem_range.mp hi
  have hcond : ¬ (wrapSub L.length small_ascii_art.length ≤ i) := by
    have h9 : small_ascii_art.length = 9 := rfl
    rw [h9, wrapSub]
    omega
  have hline : (let p := L.getD i ("", none);
      let line := padRight 12 p.1 ++ " " ++ create_ascii_bar p.2 20 ++ " "
        ++ fmtF1 p.2 ++ "%";
      if wrapSub L.length small_ascii_art.length ≤ i then
        padRight (12 + 26) line ++ " "
          ++ padLeft 50 (small_ascii_art.getD (i - wrapSub L.length small_ascii_art.length) "")
      else line)
      = padRight 12 (L.getD i ("", none)).1 ++ " "
        ++ create_ascii_bar (L.getD i ("", none)).2 20 ++ " "
        ++ fmtF1 (L.getD i ("", none)).2 ++ "%" := if_neg hcond
  rw [hline] at hrow
  rw [← hrow]
  intro hany
  obtain ⟨a, ha, hsuf⟩ := List.any_eq_true.mp hany
  obtain ⟨hane, halast⟩ := small_art_last a ha
  obtain ⟨t, ht⟩ := List.isSuffixOf_iff_suffix.mp hsuf
  have h1 : ((padRight 12 (L.getD i ("", none)).1 ++ " "
      ++ create_ascii_bar (L.getD i ("", none)).2 20 ++ " "
      ++ fmtF1 (L.getD i ("", none)).2 ++ "%").data).getLast? = some '%' := by
    rw [show (padRight 12 (L.getD i ("", none)).1 ++ " "
      ++ create_ascii_bar (L.getD i ("", none)).2 20 ++ " "
      ++ fmtF1 (L.getD i ("", none)).2 ++ "%").data
        = (padRight 12 (L.getD i ("", none)).1 ++ " "
          ++ create_ascii_bar (L.getD i ("", none)).2 20 ++ " "
          ++ fmtF1 (L.getD i ("", none)).2).data ++ ['%'] from String.data_append ..]
    exact List.getLast?_concat _
  rw [← ht, List.getLast?_append] at h1
  cases hga : a.data.getLast? with
  | none => exact hane (List.getLast?_eq_none_iff.mp hga)
  | some c =>
    rw [hga] at h1
    simp only [Option.or_some] at h1
    exact halast (by rw [hga, h1])

/-- C3: a three-language list gets no art suffix at all, not the claimed
`min(artLineCount, totalLanguages) = 3` bottom rows. -/
theorem C3_counterexample :
    (languageRows [("Rust", some 50), ("C", some 30), ("Go", some 20)]).countP
        (fun r => small_ascii_art.any (fun a => a.data.isSuffixOf r.data))
      ≠ min small_ascii_art.length
          (languageRows [("Rust", some 50), ("C", some 30), ("Go", some 20)]).length := by
  rw [languageRows_no_art _ (by decide)]
  have hlen : (languageRows [("Rust", some 50), ("C", some 30), ("Go", some 20)]).length
      = 3 := by
    simp only [languageRows, List.length_map, List.length_range]
    rfl
  rw [hlen]
  decide

/-- C3 (amended): when at least 9 languages are ranked (and at most a
`usize`'s worth), exactly the bottom 9 rows carry the art suffix: row `i`
gets the art line `i - (totalLanguages - 9)` right-aligned in a 50-character
field after padding the row to 38 characters, and every earlier row is the
bare language row.  (With fewer than 9 languages the index subtraction wraps:
no art in release builds, a panic in debug builds.) -/
theorem C3_amended (L : List (String × F)) (h9 : 9 ≤ L.length) (h64 : L.length < 2 ^ 64) :
    (languageRows L).length = L.length ∧
    languageRows L = (List.range L.length).map (fun i =>
      let p := L.getD i ("", none)
      let line := padRight 12 p.1 ++ " " ++ create_ascii_bar p.2 20 ++ " "
        ++ fmtF1 p.2 ++ "%"
      if L.length - 9 ≤ i then
        padRight (12 + 26) line ++ " "
          ++ padLeft 50 (small_ascii_art.getD (i - (L.length - 9)) "")
      else line) := by
  have hws : wrapSub L.length small_ascii_art.length = L.length - 9 := by
    have h9a : small_ascii_art.length = 9 := rfl
    rw [h9a, wrapSub]
    omega
  constructor
  · simp only [languageRows, List.length_map, List.length_range]
  · rw [languageRows, hws]

/-- A nine-language list for the C3 witness. -/
def nineLangs : List (String × F) :=
  [("A", some 20), ("B", some 15), ("C", some 15), ("D", some 10), ("E", some 10),
   ("F", some 10), ("G", some 10), ("H", some 5), ("I", some 5)]

/-- C3 (witness): the amended row layout at a concrete nine-language list. -/
theorem C3_witness :
    9 ≤ nineLangs.length ∧ nineLangs.length < 2 ^ 64 ∧
    ((languageRows nineLangs).length = nineLangs.length ∧
     languageRows nineLangs = (List.range nineLangs.length).map (fun i =>
       let p := nineLangs.getD i ("", none)
       let line := padRight 12 p.1 ++ " " ++ create_ascii_bar p.2 20 ++ " "
         ++ fmtF1 p.2 ++ "%"
       if nineLangs.length - 9 ≤ i then
         padRight (12 + 26) line ++ " "
           ++ padLeft 50 (small_ascii_art.getD (i - (nineLangs.length - 9)) "")
       else line)) :=
  ⟨by decide, by decide, C3_amended nineLangs (by decide) (by decide)⟩

/-! ## C5 -/

/-- Every character occupies at least one UTF-8 byte. -/
theorem one_le_charSize (c : Char) : 1 ≤ charSize c := by
  rw [charSize]
  split_ifs <;> omega

/-- A list of characters is no longer than its UTF-8 byte count. -/
theorem length_le_byteLen (s : String) : s.length ≤ byteLen s := by
  rw [byteLen]
  show s.data.length ≤ _
  induction s.data with
  | nil => simp
  | cons c cs ih =>
    simp only [List.map_cons, List.sum_cons, List.length_cons]
    have := one_le_charSize c
    omega

/-- Splitting at the first newline. -/
theorem splitLines_append (xs ys : List Char) (h : '\n' ∉ xs) :
    splitLines (xs ++ '\n' :: ys) = xs :: splitLines ys := by
  induction xs with
  | nil => simp [splitLines]
  | cons c xs' ih =>
    have hc : c ≠ '\n' := fun e => h (e ▸ List.mem_cons_self c xs')
    have h' : '\n' ∉ xs' := fun hm => h (List.mem_cons_of_mem c hm)
    simp [splitLines, hc, ih h']

/-- A newline-free character list is a single line. -/
theorem splitLines_of_not_mem (xs : List Char) (h : '\n' ∉ xs) :
    splitLines xs = [xs] := by
  induction xs with
  | nil => rfl
  | cons c xs' ih =>
    have hc : c ≠ '\n' := fun e => h (e ▸ List.mem_cons_self c xs')
    have h' : '\n' ∉ xs' := fun hm => h (List.mem_cons_of_mem c hm)
    simp [splitLines, hc, ih h']

/-- `lines()` of a three-line string whose last line is nonempty. -/
theorem rustLines_three (A B C : String)
    (hA : '\n' ∉ A.data) (hB : '\n' ∉ B.data) (hC : '\n' ∉ C.data)
    (hCne : C.data ≠ []) :
    rustLines (A ++ "\n" ++ B ++ "\n" ++ C) = [A, B, C] := by
  have hnl : ("\n" : String).data = ['\n'] := rfl
  have hdata : (A ++ "\n" ++ B ++ "\n" ++ C).data
      = A.data ++ '\n' :: (B.data ++ '\n' :: C.data) := by
    simp [String.data_append, hnl]
  rw [rustLines, hdata, splitLines_append _ _ hA, splitLines_append _ _ hB,
    splitLines_of_not_mem _ hC]
  have hdrop : dropFinalEmpty [A.data, B.data, C.data] = [A.data, B.data, C.data] := by
    simp [dropFinalEmpty, hCne]
  rw [hdrop]
  simp

/-- The length of a padded field. -/
theorem padRight_length (w : Nat) (s : String) :
    (padRight w s).length = s.length + (w - s.length) := by
  simp [padRight]

/-- The length of a repeated character. -/
theorem repChar_length (n : Nat) (c : Char) : (repChar n c).length = n := by
  simp [repChar]

/-- C5: a label containing a newline breaks the three-line shape: the badge
body then spans four lines, so the claim fails for unrestricted label/value
strings. -/
theorem C5_counterexample :
    (rustLines (create_ascii_badge "a\nb" "1" 0)).length ≠ 3 := by
  decide

/-- C5 (amended): for every newline-free label and value and every requested
width, the badge is a three-line block; the first and last lines have equal
character length, every line has character length
`max(minWidth, bytelen(label) + bytelen(value) + 4) + 2` (lengths taken in
UTF-8 bytes, as `str::len` does), and the middle line contains the full label
and the full value — an over-wide label/value pair widens the badge instead
of being truncated. -/
theorem C5_amended (label value : String) (width : Nat)
    (hl : '\n' ∉ label.data) (hv : '\n' ∉ value.data) :
    ∃ l1 l2 l3,
      rustLines (create_ascii_badge label value width) = [l1, l2, l3] ∧
      l1.length = l3.length ∧
      l1.length = max width (byteLen label + byteLen value + 4) + 2 ∧
      l2.length = max width (byteLen label + byteLen value + 4) + 2 ∧
      l3.length = max width (byteLen label + byteLen value + 4) + 2 ∧
      List.IsInfix label.data l2.data ∧
      List.IsInfix value.data l2.data := by
  have hM : byteLen label + byteLen value + 4
      ≤ max width (byteLen label + byteLen value + 4) := le_max_right _ _
  have hlb := length_le_byteLen label
  have hvb := length_le_byteLen value
  have len1 : ("╭" : String).length = 1 := rfl
  have len2 : ("╮" : String).length = 1 := rfl
  have len3 : ("╰" : String).length = 1 := rfl
  have len4 : ("╯" : String).length = 1 := rfl
  have len5 : ("│" : String).length = 1 := rfl
  have len6 : (" " : String).length = 1 := rfl
  refine ⟨"╭" ++ repChar (max width (byteLen label + byteLen value + 4)) '─' ++ "╮",
    "│" ++ (" " ++ padRight (byteLen label + 2 - 2) label) ++ "│"
      ++ (" " ++ padRight (max width (byteLen label + byteLen value + 4)
            - (byteLen label + 2) - 2) value ++ " ") ++ "│",
    "╰" ++ repChar (max width (byteLen label + byteLen value + 4)) '─' ++ "╯",
    ?_, ?_, ?_, ?_, ?_, ?_, ?_⟩
  · have hbadge : create_ascii_badge label value width
        = ("╭" ++ repChar (max width (byteLen label + byteLen value + 4)) '─' ++ "╮")
          ++ "\n"
          ++ ("│" ++ (" " ++ padRight (byteLen label + 2 - 2) label) ++ "│"
              ++ (" " ++ padRight (max width (byteLen label + byteLen value + 4)
                    - (byteLen label + 2) - 2) value ++ " ") ++ "│")
          ++ "\n"
          ++ ("╰" ++ repChar (max width (byteLen label + byteLen value + 4)) '─' ++ "╯") := by
      apply String.ext
      simp [create_ascii_badge, String.data_append]
    rw [hbadge]
    apply rustLines_three
    · simp [String.data_append, repChar, List.mem_append, List.mem_replicate]
    · simp [String.data_append, padRight, List.mem_append, List.mem_replicate, hl, hv]
    · simp [String.data_append, repChar, List.mem_append, List.mem_replicate]
    · simp [String.data_append]
  · simp only [String.length_append, repChar_length, len1, len2, len3, len4]
  · simp only [String.length_append, repChar_length, len1, len2]
    omega
  · simp only [String.length_append, padRight_length, len5, len6]
    omega
  · simp only [String.length_append, repChar_length, len3, len4]
    omega
  · refine ⟨['│', ' '], List.replicate (byteLen label + 2 - 2 - label.length) ' '
        ++ ('│' :: ' ' :: value.data)
        ++ (List.replicate (max width (byteLen label + byteLen value + 4)
              - (byteLen label + 2) - 2 - value.length) ' ' ++ [' ', '│']), ?_⟩
    simp [String.data_append, padRight]
  · refine ⟨'│' :: ' ' :: label.data
        ++ List.replicate (byteLen label + 2 - 2 - label.length) ' '
        ++ ['│', ' '],
      List.replicate (max width (byteLen label + byteLen value + 4)
          - (byteLen label + 2) - 2 - value.length) ' ' ++ [' ', '│'], ?_⟩
    simp [String.data_append, padRight]

/-- C5 (witness): the claim's own test vector, `renderBadge("Stars", "42", 20)`. -/
theorem C5_witness :
    '\n' ∉ ("Stars" : String).data ∧ '\n' ∉ ("42" : String).data ∧
    (∃ l1 l2 l3,
      rustLines (create_ascii_badge "Stars" "42" 20) = [l1, l2, l3] ∧
      l1.length = l3.length ∧
      l1.length = max 20 (byteLen "Stars" + byteLen "42" + 4) + 2 ∧
      l2.length = max 20 (byteLen "Stars" + byteLen "42" + 4) + 2 ∧
      l3.length = max 20 (byteLen "Stars" + byteLen "42" + 4) + 2 ∧
      List.IsInfix ("Stars" : String).data l2.data ∧
      List.IsInfix ("42" : String).data l2.data) :=
  ⟨by decide, by decide, C5_amended "Stars" "42" 20 (by decide) (by decide)⟩

/-! ## C9 -/

/-- When an activity's timestamp parses, its formatted row does not depend on
the ambient current time. -/
theorem format_activity_now_indep (a : Json) (n1 n2 : DateTimeF)
    (h : (parse_rfc3339 (((a.get "created_at").as_str).getD "")).isSome) :
    format_activity n1 a = format_activity n2 a := by
  obtain ⟨d, hd⟩ := Option.isSome_iff_exists.mp h
  simp [format_activity, hd]

/-- An activity with a malformed timestamp, for the C9 counterexample. -/
def unparseableActivity : Json :=
  .obj [("type", .str "PushEvent"), ("repo", .obj [("name", .str "x/y")]),
    ("created_at", .str "bad")]

set_option maxRecDepth 100000 in
set_option maxHeartbeats 4000000 in
/-- C9: two runs over the same immutable input are not byte-identical outside
the `Last updated` line: an unparseable activity timestamp makes the activity
row embed the run's current time, so the two documents differ in the activity
section as well. -/
theorem C9_counterexample :
    stripLastUpdated (composeReport [] [unparseableActivity] (.obj []) 0
        ⟨2024, 1, 1, 0, 0, 0⟩ ⟨2024, 1, 1, 0, 0, 0⟩)
      ≠ stripLastUpdated (composeReport [] [unparseableActivity] (.obj []) 0
          ⟨2024, 1, 1, 0, 1, 0⟩ ⟨2024, 1, 1, 0, 1, 0⟩) := by
  decide

/-- C9 (amended): when every activity timestamp parses (and the aggregated
language list, the run-to-run-varying hash iteration order included, is held
fixed), two runs differ only in the `Last updated` timestamp line: both
documents share one prefix and one suffix around that line. -/
theorem C9_amended (top_languages : List (String × F)) (activities : List Json)
    (stats : Json) (followers : Nat) (nU1 nL1 nU2 nL2 : DateTimeF)
    (h : ∀ a ∈ activities,
      (parse_rfc3339 (((a.get "created_at").as_str).getD "")).isSome) :
    ∃ P S,
      composeReport top_languages activities stats followers nU1 nL1
        = P ++ ("Last updated: " ++ fmtYmdHms nL1 ++ "\n") ++ S ∧
      composeReport top_languages activities stats followers nU2 nL2
        = P ++ ("Last updated: " ++ fmtYmdHms nL2 ++ "\n") ++ S := by
  have hact : activityLines nU2 activities = activityLines nU1 activities := by
    show String.join ((activities.take 5).map (fun a => format_activity nU2 a ++ "\n"))
        = String.join ((activities.take 5).map (fun a => format_activity nU1 a ++ "\n"))
    exact congrArg String.join (List.map_congr_left (fun a ha => by
      rw [format_activity_now_indep a nU2 nU1 (h a (List.take_subset 5 activities ha))]))
  have hbody : reportBody top_languages activities stats followers nU2
      = reportBody top_languages activities stats followers nU1 := by
    rw [reportBody]
    rw [hact]
    rw [reportBody]
  refine ⟨reportBody top_languages activities stats followers nU1, reportTail, rfl, ?_⟩
  rw [composeReport, hbody]

/-- An activity with a well-formed timestamp, for the C9 witness. -/
def parseableActivity : Json :=
  .obj [("type", .str "WatchEvent"), ("repo", .obj [("name", .str "m/n")]),
    ("created_at", .str "2025-06-07T08:09:10Z")]

/-- C9 (witness): the amended decomposition at one concrete input and two
concrete pairs of run times. -/
theorem C9_witness :
    (∀ a ∈ [parseableActivity],
      (parse_rfc3339 (((a.get "created_at").as_str).getD "")).isSome) ∧
    ∃ P S,
      composeReport [] [parseableActivity] (.obj []) 0
          ⟨2025, 1, 1, 0, 0, 0⟩ ⟨2025, 1, 1, 0, 0, 0⟩
        = P ++ ("Last updated: " ++ fmtYmdHms ⟨2025, 1, 1, 0, 0, 0⟩ ++ "\n") ++ S ∧
      composeReport [] [parseableActivity] (.obj []) 0
          ⟨2025, 2, 2, 3, 4, 5⟩ ⟨2025, 2, 2, 3, 4, 5⟩
        = P ++ ("Last updated: " ++ fmtYmdHms ⟨2025, 2, 2, 3, 4, 5⟩ ++ "\n") ++ S :=
  ⟨by decide, C9_amended [] [parseableActivity] (.obj []) 0
    ⟨2025, 1, 1, 0, 0, 0⟩ ⟨2025, 1, 1, 0, 0, 0⟩
    ⟨2025, 2, 2, 3, 4, 5⟩ ⟨2025, 2, 2, 3, 4, 5⟩ (by decide)⟩

end Readme
